import Mathlib

/-!
# Verification of the live-chat streaming subsystem (`src/live_chat.rs`)

Shallow embedding of the `LiveChatClient` WebSocket pump:

* `Json` models `serde_json::Value` restricted to the shapes the protocol
  uses (integer numbers suffice; no claim involves floats).
* `PusherMessage.fromJson` and `LiveChatMessage.fromJson` model the
  `#[derive(Deserialize)]` semantics of the structs in
  `src/models/live_chat.rs` (required fields must be present with the right
  shape, `#[serde(default)]` fields tolerate absence and `null`).
* The lexical layer of `serde_json::from_str` (text → JSON tree) is an
  external collaborator, abstracted as a parameter `jp : String → Option Json`;
  everything after that point is modelled concretely from the source.
* Inbound traffic is a finite list of `InItem` (frames or transport read
  errors); the stream ending (`ws.next()` returning `None`) is the end of
  the list.  Outbound sends are collected in order as `OutMsg` values
  (a sent text frame is represented by the JSON tree the source builds
  with `serde_json::json!`; serialization is the external codec).
* `nextEvent`, `nextMessage`, `waitForEvent`, `connect` are translated from
  `LiveChatClient::next_event`, `next_message`, `wait_for_event`,
  `connect`: each returns its result, the remaining inbound list, and the
  list of messages sent during the call.
-/

/-- A JSON value (integer numerics; the protocol uses none other). -/
inductive Json where
  | null : Json
  | bool : Bool → Json
  | num : Int → Json
  | str : String → Json
  | arr : List Json → Json
  | obj : List (String × Json) → Json

/-- First binding of a key in a JSON object; `none` on non-objects. -/
def Json.getField : Json → String → Option Json
  | .obj fields, k => fields.lookup k
  | _, _ => none

/-- Pusher wire-format message (outer envelope), from
`src/models/live_chat.rs`: `event: String`, `data: String`,
`#[serde(default)] channel: Option<String>`. -/
structure PusherMessage where
  event : String
  data : String
  channel : Option String
deriving DecidableEq

/-- `serde` derive semantics for `PusherMessage` on a JSON tree: `event`
and `data` are required string fields, `channel` defaults to `None` and
accepts `null` or a string. -/
def PusherMessage.fromJson (j : Json) : Option PusherMessage :=
  match j.getField "event", j.getField "data" with
  | some (.str e), some (.str d) =>
      match j.getField "channel" with
      | none => some ⟨e, d, none⟩
      | some .null => some ⟨e, d, none⟩
      | some (.str c) => some ⟨e, d, some c⟩
      | some _ => none
  | _, _ => none

/-- A raw Pusher event surfaced to the caller (`PusherEvent` in
`src/models/live_chat.rs`). -/
structure PusherEvent where
  event : String
  channel : Option String
  data : String
deriving DecidableEq

/-- A badge (`ChatBadge`): required `type`, `text`; `count` defaults. -/
structure ChatBadge where
  type : String
  text : String
  count : Option Nat
deriving DecidableEq

/-- Visual identity (`ChatIdentity`): required `color`, `badges`. -/
structure ChatIdentity where
  color : String
  badges : List ChatBadge
deriving DecidableEq

/-- Sender (`ChatSender`): required `id`, `username`, `identity`;
`slug` defaults. -/
structure ChatSender where
  id : Nat
  username : String
  slug : Option String
  identity : ChatIdentity
deriving DecidableEq

/-- `OriginalSender`: required `username`. -/
structure OriginalSender where
  username : String
deriving DecidableEq

/-- `OriginalMessage`: required `content`. -/
structure OriginalMessage where
  content : String
deriving DecidableEq

/-- Reply metadata (`ChatMessageMetadata`): both fields default. -/
structure ChatMessageMetadata where
  original_sender : Option OriginalSender
  original_message : Option OriginalMessage
deriving DecidableEq

/-- A live chat message (`LiveChatMessage`): required `id`, `content`,
`type`, `sender`; `chatroom_id`, `created_at`, `metadata` default. -/
structure LiveChatMessage where
  id : String
  chatroom_id : Option Nat
  content : String
  type : String
  created_at : Option String
  sender : ChatSender
  metadata : Option ChatMessageMetadata
deriving DecidableEq

/-- Decode an optional string field: absent or `null` gives `none`,
a string gives `some`, anything else is a deserialization error. -/
def decodeOptStr (j : Json) (k : String) : Option (Option String) :=
  match j.getField k with
  | none => some none
  | some .null => some none
  | some (.str s) => some (some s)
  | some _ => none

/-- Decode an optional unsigned-integer field bounded by `bound`
(exclusive), mirroring `Option<u64>` and `Option<u32>` with
`#[serde(default)]`. -/
def decodeOptUInt (j : Json) (k : String) (bound : Int) : Option (Option Nat) :=
  match j.getField k with
  | none => some none
  | some .null => some none
  | some (.num n) => if 0 ≤ n ∧ n < bound then some (some n.toNat) else none
  | some _ => none

/-- Decode an optional struct field via `f`: absent or `null` gives
`none`; a present value must decode. -/
def decodeOptWith {α : Type} (f : Json → Option α) (j : Json) (k : String) :
    Option (Option α) :=
  match j.getField k with
  | none => some none
  | some .null => some none
  | some v =>
      match f v with
      | some a => some (some a)
      | none => none

/-- Decode every element of a JSON array (all must succeed), as `serde`
decodes a `Vec`. -/
def decodeEach {α : Type} (f : Json → Option α) : List Json → Option (List α)
  | [] => some []
  | x :: xs =>
      match f x, decodeEach f xs with
      | some a, some rest => some (a :: rest)
      | _, _ => none

/-- `serde` derive semantics for `ChatBadge`. -/
def ChatBadge.fromJson (j : Json) : Option ChatBadge :=
  match j.getField "type", j.getField "text" with
  | some (.str t), some (.str x) =>
      match decodeOptUInt j "count" (2 ^ 32) with
      | some c => some ⟨t, x, c⟩
      | none => none
  | _, _ => none

/-- `serde` derive semantics for `ChatIdentity`. -/
def ChatIdentity.fromJson (j : Json) : Option ChatIdentity :=
  match j.getField "color", j.getField "badges" with
  | some (.str c), some (.arr bs) =>
      match decodeEach ChatBadge.fromJson bs with
      | some badges => some ⟨c, badges⟩
      | none => none
  | _, _ => none

/-- `serde` derive semantics for `ChatSender`. -/
def ChatSender.fromJson (j : Json) : Option ChatSender :=
  match j.getField "id", j.getField "username", j.getField "identity" with
  | some (.num n), some (.str u), some idj =>
      if 0 ≤ n ∧ n < 2 ^ 64 then
        match decodeOptStr j "slug", ChatIdentity.fromJson idj with
        | some slug, some ident => some ⟨n.toNat, u, slug, ident⟩
        | _, _ => none
      else none
  | _, _, _ => none

/-- `serde` derive semantics for `OriginalSender`. -/
def OriginalSender.fromJson (j : Json) : Option OriginalSender :=
  match j.getField "username" with
  | some (.str u) => some ⟨u⟩
  | _ => none

/-- `serde` derive semantics for `OriginalMessage`. -/
def OriginalMessage.fromJson (j : Json) : Option OriginalMessage :=
  match j.getField "content" with
  | some (.str c) => some ⟨c⟩
  | _ => none

/-- `serde` derive semantics for `ChatMessageMetadata`. -/
def ChatMessageMetadata.fromJson (j : Json) : Option ChatMessageMetadata :=
  match decodeOptWith OriginalSender.fromJson j "original_sender",
        decodeOptWith OriginalMessage.fromJson j "original_message" with
  | some os, some om => some ⟨os, om⟩
  | _, _ => none

/-- `serde` derive semantics for `LiveChatMessage`. -/
def LiveChatMessage.fromJson (j : Json) : Option LiveChatMessage :=
  match j.getField "id", j.getField "content", j.getField "type",
        j.getField "sender" with
  | some (.str i), some (.str c), some (.str t), some sj =>
      match decodeOptUInt j "chatroom_id" (2 ^ 64), decodeOptStr j "created_at",
            ChatSender.fromJson sj,
            decodeOptWith ChatMessageMetadata.fromJson j "metadata" with
      | some room, some created, some sender, some meta =>
          some ⟨i, room, c, t, created, sender, meta⟩
      | _, _, _, _ => none
  | _, _, _, _ => none

/-- An inbound WebSocket frame, by the `tungstenite::Message` arms the
source distinguishes: `Text`, `Close`, `Ping` (with its payload), and the
catch-all `_` (binary, pong, ...). -/
inductive Frame where
  | text : String → Frame
  | close : Frame
  | ping : List Nat → Frame
  | other : Frame
deriving DecidableEq

/-- One yield of `ws.next()`: a frame, or a transport read error
(tagged by a numeral standing for the `tungstenite` error value). -/
inductive InItem where
  | ok : Frame → InItem
  | err : Nat → InItem
deriving DecidableEq

/-- The error type (`KickApiError` variants this module constructs). -/
inductive KickApiError where
  | webSocketError : Nat → KickApiError
  | unexpectedError : String → KickApiError
deriving DecidableEq

/-- An outbound send: a transport-level pong control frame, or a text
frame carrying a JSON document (serialization left to the codec). -/
inductive OutMsg where
  | transportPong : List Nat → OutMsg
  | textJson : Json → OutMsg

/-- The `serde_json::json!` document sent as a protocol-level pong. -/
def pusherPongJson : Json :=
  .obj [("event", .str "pusher:pong"), ("data", .obj [])]

/-- Rust `str::starts_with` on string slices: the pattern is a prefix of
the receiver. -/
def strStartsWith (s p : String) : Bool := p.data.isPrefixOf s.data

/-- Envelope decode of a text frame: external JSON parse `jp` followed by
`PusherMessage` deserialization (`serde_json::from_str::<PusherMessage>`). -/
def decodeEnv (jp : String → Option Json) (s : String) : Option PusherMessage :=
  (jp s).bind PusherMessage.fromJson

/-- Inner chat-message decode of an envelope `data` string
(`serde_json::from_str::<LiveChatMessage>`). -/
def parseChat (jp : String → Option Json) (s : String) : Option LiveChatMessage :=
  (jp s).bind LiveChatMessage.fromJson

/-- Result of one receive-loop call: the returned value, the inbound items
not yet consumed, and the messages sent during the call, in order. -/
structure Step (α : Type) where
  res : Except KickApiError α
  rest : List InItem
  sent : List OutMsg

/-- `LiveChatClient::next_event` (src/live_chat.rs lines 80 to 129): loop
over inbound items; end of stream and close frames give `Ok(None)`; a read
error propagates; transport pings are answered with transport pongs;
non-text frames are skipped; undecodable text is skipped; a decoded
envelope named `pusher:ping` is answered with the `pusher:pong` document;
other `pusher:`/`pusher_internal:` envelopes are skipped; anything else is
returned as a `PusherEvent`. -/
def nextEvent (jp : String → Option Json) : List InItem → Step (Option PusherEvent)
  | [] => ⟨.ok none, [], []⟩
  | .err e :: rest => ⟨.error (.webSocketError e), rest, []⟩
  | .ok .close :: rest => ⟨.ok none, rest, []⟩
  | .ok (.ping d) :: rest =>
      let s := nextEvent jp rest
      ⟨s.res, s.rest, .transportPong d :: s.sent⟩
  | .ok .other :: rest => nextEvent jp rest
  | .ok (.text t) :: rest =>
      match decodeEnv jp t with
      | none => nextEvent jp rest
      | some m =>
          if m.event = "pusher:ping" then
            let s := nextEvent jp rest
            ⟨s.res, s.rest, .textJson pusherPongJson :: s.sent⟩
          else if strStartsWith m.event "pusher:" || strStartsWith m.event "pusher_internal:" then
            nextEvent jp rest
          else
            ⟨.ok (some ⟨m.event, m.channel, m.data⟩), rest, []⟩

/-- Accumulated observable behavior of repeatedly calling `next_event` on a
ready session until it yields `Ok(None)` or an error: the caller-visible
event sequence, everything sent, and the unconsumed inbound suffix. -/
structure Drained where
  events : List PusherEvent
  sent : List OutMsg
  rest : List InItem

/-- Repeated calls of `nextEvent` until `Ok(None)` or an error. -/
def drain (jp : String → Option Json) (l : List InItem) : Drained :=
  let s := nextEvent jp l
  match hres : s.res with
  | .ok (some ev) =>
      let d := drain jp s.rest
      ⟨ev :: d.events, s.sent ++ d.sent, d.rest⟩
  | .ok none => ⟨[], s.sent, s.rest⟩
  | .error _ => ⟨[], s.sent, s.rest⟩
termination_by l.length
decreasing_by
  have key : ∀ (L : List InItem) (st : Step (Option PusherEvent)), nextEvent jp L = st →
      ∀ e, st.res = Except.ok (some e) → st.rest.length < L.length := by
    intro L
    induction L with
    | nil => intro st hs e hr; simp only [nextEvent] at hs; subst hs; simp at hr
    | cons x rest ih =>
      intro st hs e hr
      cases x with
      | err ec => simp only [nextEvent] at hs; subst hs; simp at hr
      | ok f =>
        cases f with
        | close => simp only [nextEvent] at hs; subst hs; simp at hr
        | ping d => simp only [nextEvent] at hs; subst hs; exact Nat.lt_succ_of_lt (ih (nextEvent jp rest) rfl e hr)
        | other => simp only [nextEvent] at hs; subst hs; exact Nat.lt_succ_of_lt (ih _ rfl e hr)
        | text t =>
          simp only [nextEvent] at hs
          split at hs
          · subst hs; exact Nat.lt_succ_of_lt (ih _ rfl e hr)
          · split at hs
            · subst hs; exact Nat.lt_succ_of_lt (ih (nextEvent jp rest) rfl e hr)
            · split at hs
              · subst hs; exact Nat.lt_succ_of_lt (ih _ rfl e hr)
              · subst hs; exact Nat.lt_succ_self _
  exact key l _ rfl ev hres

/-- `LiveChatClient::next_message` (src/live_chat.rs lines 136 to 154):
loop over `next_event`; `None` and errors propagate; an event whose name is
not exactly the chat-message identifier is discarded; a chat-message event
whose `data` fails the inner parse is discarded silently; otherwise the
parsed message is returned. -/
def nextMessage (jp : String → Option Json) (l : List InItem) :
    Step (Option LiveChatMessage) :=
  let s := nextEvent jp l
  match hres : s.res with
  | .error e => ⟨.error e, s.rest, s.sent⟩
  | .ok none => ⟨.ok none, s.rest, s.sent⟩
  | .ok (some ev) =>
      if ev.event = "App\\Events\\ChatMessageEvent" then
        match parseChat jp ev.data with
        | some m => ⟨.ok (some m), s.rest, s.sent⟩
        | none =>
            let s2 := nextMessage jp s.rest
            ⟨s2.res, s2.rest, s.sent ++ s2.sent⟩
      else
        let s2 := nextMessage jp s.rest
        ⟨s2.res, s2.rest, s.sent ++ s2.sent⟩
termination_by l.length
decreasing_by
  all_goals {
    have key : ∀ (L : List InItem) (st : Step (Option PusherEvent)), nextEvent jp L = st →
        ∀ e, st.res = Except.ok (some e) → st.rest.length < L.length := by
      intro L
      induction L with
      | nil => intro st hs e hr; simp only [nextEvent] at hs; subst hs; simp at hr
      | cons x rest ih =>
        intro st hs e hr
        cases x with
        | err ec => simp only [nextEvent] at hs; subst hs; simp at hr
        | ok f =>
          cases f with
          | close => simp only [nextEvent] at hs; subst hs; simp at hr
          | ping d => simp only [nextEvent] at hs; subst hs; exact Nat.lt_succ_of_lt (ih (nextEvent jp rest) rfl e hr)
          | other => simp only [nextEvent] at hs; subst hs; exact Nat.lt_succ_of_lt (ih _ rfl e hr)
          | text t =>
            simp only [nextEvent] at hs
            split at hs
            · subst hs; exact Nat.lt_succ_of_lt (ih _ rfl e hr)
            · split at hs
              · subst hs; exact Nat.lt_succ_of_lt (ih (nextEvent jp rest) rfl e hr)
              · split at hs
                · subst hs; exact Nat.lt_succ_of_lt (ih _ rfl e hr)
                · subst hs; exact Nat.lt_succ_self _
    exact key l _ rfl ev hres
  }

/-- `wait_for_event` (src/live_chat.rs lines 177 to 207): loop until a
frame decodes to an envelope named `event_name`.  End of stream is the
fatal `UnexpectedError`; a read error propagates; transport pings are
answered with transport pongs; every other frame (including close frames
and any non-matching or undecodable envelope) is discarded. -/
def waitForEvent (jp : String → Option Json) (eventName : String) :
    List InItem → Step Unit
  | [] => ⟨.error (.unexpectedError ("Connection closed while waiting for " ++ eventName)), [], []⟩
  | .err e :: rest => ⟨.error (.webSocketError e), rest, []⟩
  | .ok (.ping d) :: rest =>
      let s := waitForEvent jp eventName rest
      ⟨s.res, s.rest, .transportPong d :: s.sent⟩
  | .ok .close :: rest => waitForEvent jp eventName rest
  | .ok .other :: rest => waitForEvent jp eventName rest
  | .ok (.text t) :: rest =>
      match decodeEnv jp t with
      | none => waitForEvent jp eventName rest
      | some m =>
          if m.event = eventName then ⟨.ok (), rest, []⟩
          else waitForEvent jp eventName rest

/-- The `serde_json::json!` subscribe document sent by `connect`. -/
def subscribeJson (channel : String) : Json :=
  .obj [("event", .str "pusher:subscribe"),
        ("data", .obj [("auth", .str ""), ("channel", .str channel)])]

/-- Result of `connect`: on success the inbound items remaining for the
ready session, otherwise the error; plus everything sent. -/
structure ConnectResult where
  res : Except KickApiError (List InItem)
  sent : List OutMsg

/-- `LiveChatClient::connect` (src/live_chat.rs lines 47 to 73): derive the
channel name `chatrooms.<id>.v2`, wait for `pusher:connection_established`,
send the subscribe document, wait for
`pusher_internal:subscription_succeeded`, and return the ready session.
The WebSocket opening itself is the transport collaborator; its traffic is
the inbound list. -/
def connect (jp : String → Option Json) (chatroomId : Nat) (l : List InItem) :
    ConnectResult :=
  let channel := "chatrooms." ++ Nat.repr chatroomId ++ ".v2"
  let w1 := waitForEvent jp "pusher:connection_established" l
  match w1.res with
  | .error e => ⟨.error e, w1.sent⟩
  | .ok _ =>
      let w2 := waitForEvent jp "pusher_internal:subscription_succeeded" w1.rest
      match w2.res with
      | .error e => ⟨.error e, w1.sent ++ .textJson (subscribeJson channel) :: w2.sent⟩
      | .ok _ => ⟨.ok w2.rest, w1.sent ++ .textJson (subscribeJson channel) :: w2.sent⟩

/-- Is this inbound item a ping in either sense: a transport ping frame,
or a text frame decoding to an envelope named `pusher:ping`? -/
def isPingItem (jp : String → Option Json) (it : InItem) : Bool :=
  match it with
  | .ok (.ping _) => true
  | .ok (.text t) =>
      match decodeEnv jp t with
      | some m => m.event == "pusher:ping"
      | none => false
  | _ => false

/-- The pong replies the steady-state pump owes for one inbound item: a
transport pong for a transport ping frame, the protocol pong document for
an envelope named `pusher:ping`, nothing otherwise. -/
def pongFor (jp : String → Option Json) (it : InItem) : List OutMsg :=
  match it with
  | .ok (.ping d) => [.transportPong d]
  | .ok (.text t) =>
      match decodeEnv jp t with
      | some m => if m.event = "pusher:ping" then [.textJson pusherPongJson] else []
      | none => []
  | _ => []

/-- Pong replies owed for a list of inbound items, in order. -/
def pongsFor (jp : String → Option Json) : List InItem → List OutMsg
  | [] => []
  | it :: l => pongFor jp it ++ pongsFor jp l

/-- An inbound sequence with every ping removed (transport ping frames and
protocol keepalive-ping envelopes alike). -/
def stripPings (jp : String → Option Json) : List InItem → List InItem
  | [] => []
  | it :: l => if isPingItem jp it then stripPings jp l else it :: stripPings jp l

/-- Transport pongs owed for the transport ping frames of a list, in
order (the handshake answers only these). -/
def transportPongsFor : List InItem → List OutMsg
  | [] => []
  | .ok (.ping d) :: l => .transportPong d :: transportPongsFor l
  | _ :: l => transportPongsFor l

/-- Is this outbound message a text frame (as opposed to a transport-level
pong control frame)? -/
def isTextSend : OutMsg → Bool
  | .textJson _ => true
  | .transportPong _ => false

/-- Does this inbound item decode to an envelope named `name`? -/
def matchesName (jp : String → Option Json) (name : String) (it : InItem) : Bool :=
  match it with
  | .ok (.text t) =>
      match decodeEnv jp t with
      | some m => m.event == name
      | none => false
  | _ => false

/-- An envelope document with a string `data` field, for concrete runs. -/
def envJson (name data : String) : Json :=
  .obj [("event", .str name), ("data", .str data)]

/-- A concrete inner chat-message document, for concrete runs. -/
def chatPayloadJson : Json :=
  .obj [("id", .str "1"), ("content", .str "hi"), ("type", .str "message"),
        ("sender", .obj [("id", .num 5), ("username", .str "bob"),
          ("identity", .obj [("color", .str "#fff"), ("badges", .arr [])])])]

/-- The chat message `chatPayloadJson` decodes to. -/
def msgFix : LiveChatMessage :=
  ⟨"1", none, "hi", "message", none, ⟨5, "bob", none, ⟨"#fff", []⟩⟩, none⟩

/-- A finite concrete instantiation of the external JSON codec, keyed by
short frame texts, for concrete runs of the loops. -/
def jpFix : String → Option Json := fun s =>
  if s = "conn" then some (envJson "pusher:connection_established" "{}")
  else if s = "sub" then some (envJson "pusher_internal:subscription_succeeded" "{}")
  else if s = "ping" then some (envJson "pusher:ping" "{}")
  else if s = "int" then some (envJson "pusher_internal:member_added" "{}")
  else if s = "chat" then some (envJson "App\\Events\\ChatMessageEvent" "payload")
  else if s = "chatbad" then some (envJson "App\\Events\\ChatMessageEvent" "garbage")
  else if s = "follow" then some (envJson "App\\Events\\FollowEvent" "{}")
  else if s = "payload" then some chatPayloadJson
  else none

/-! ## Equations of `nextEvent` -/

theorem nextEvent_nil (jp : String → Option Json) :
    nextEvent jp [] = ⟨.ok none, [], []⟩ := rfl

theorem nextEvent_err (jp : String → Option Json) (e : Nat) (l : List InItem) :
    nextEvent jp (.err e :: l) = ⟨.error (.webSocketError e), l, []⟩ := rfl

theorem nextEvent_close (jp : String → Option Json) (l : List InItem) :
    nextEvent jp (.ok .close :: l) = ⟨.ok none, l, []⟩ := rfl

theorem nextEvent_ping (jp : String → Option Json) (d : List Nat) (l : List InItem) :
    nextEvent jp (.ok (.ping d) :: l) =
      ⟨(nextEvent jp l).res, (nextEvent jp l).rest,
        .transportPong d :: (nextEvent jp l).sent⟩ := rfl

theorem nextEvent_other (jp : String → Option Json) (l : List InItem) :
    nextEvent jp (.ok .other :: l) = nextEvent jp l := rfl

theorem nextEvent_text_undecodable (jp : String → Option Json) (t : String)
    (l : List InItem) (h : decodeEnv jp t = none) :
    nextEvent jp (.ok (.text t) :: l) = nextEvent jp l := by
  simp [nextEvent, h]

theorem nextEvent_text_pusherPing (jp : String → Option Json) (t : String)
    (l : List InItem) (m : PusherMessage) (h : decodeEnv jp t = some m)
    (hp : m.event = "pusher:ping") :
    nextEvent jp (.ok (.text t) :: l) =
      ⟨(nextEvent jp l).res, (nextEvent jp l).rest,
        .textJson pusherPongJson :: (nextEvent jp l).sent⟩ := by
  simp [nextEvent, h, hp]

theorem nextEvent_text_internal (jp : String → Option Json) (t : String)
    (l : List InItem) (m : PusherMessage) (h : decodeEnv jp t = some m)
    (hp : m.event ≠ "pusher:ping")
    (hi : (strStartsWith m.event "pusher:" || strStartsWith m.event "pusher_internal:") = true) :
    nextEvent jp (.ok (.text t) :: l) = nextEvent jp l := by
  simp [nextEvent, h, hp, hi]

theorem nextEvent_text_visible (jp : String → Option Json) (t : String)
    (l : List InItem) (m : PusherMessage) (h : decodeEnv jp t = some m)
    (hp : m.event ≠ "pusher:ping")
    (hi : (strStartsWith m.event "pusher:" || strStartsWith m.event "pusher_internal:") = false) :
    nextEvent jp (.ok (.text t) :: l) =
      ⟨.ok (some ⟨m.event, m.channel, m.data⟩), l, []⟩ := by
  simp [nextEvent, h, hp, hi]

/-! ## Structural facts about `nextEvent` -/

theorem nextEvent_some_rest_lt (jp : String → Option Json) (l : List InItem)
    (ev : PusherEvent) (h : (nextEvent jp l).res = Except.ok (some ev)) :
    (nextEvent jp l).rest.length < l.length := by
  have key : ∀ (L : List InItem) (st : Step (Option PusherEvent)), nextEvent jp L = st →
      ∀ e, st.res = Except.ok (some e) → st.rest.length < L.length := by
    intro L
    induction L with
    | nil => intro st hs e hr; simp only [nextEvent] at hs; subst hs; simp at hr
    | cons x rest ih =>
      intro st hs e hr
      cases x with
      | err ec => simp only [nextEvent] at hs; subst hs; simp at hr
      | ok f =>
        cases f with
        | close => simp only [nextEvent] at hs; subst hs; simp at hr
        | ping d =>
          simp only [nextEvent] at hs; subst hs
          exact Nat.lt_succ_of_lt (ih (nextEvent jp rest) rfl e hr)
        | other =>
          simp only [nextEvent] at hs; subst hs
          exact Nat.lt_succ_of_lt (ih _ rfl e hr)
        | text t =>
          simp only [nextEvent] at hs
          split at hs
          · subst hs; exact Nat.lt_succ_of_lt (ih _ rfl e hr)
          · split at hs
            · subst hs; exact Nat.lt_succ_of_lt (ih (nextEvent jp rest) rfl e hr)
            · split at hs
              · subst hs; exact Nat.lt_succ_of_lt (ih _ rfl e hr)
              · subst hs; exact Nat.lt_succ_self _
  exact key l _ rfl ev h

theorem pongsFor_append (jp : String → Option Json) (a b : List InItem) :
    pongsFor jp (a ++ b) = pongsFor jp a ++ pongsFor jp b := by
  induction a with
  | nil => simp [pongsFor]
  | cons x a ih => simp [pongsFor, ih]

/-- Each call of `nextEvent` consumes a prefix of the inbound list and
sends exactly the pong replies owed for that prefix. -/
theorem nextEvent_consumed (jp : String → Option Json) (l : List InItem) :
    ∃ pre, pre ++ (nextEvent jp l).rest = l ∧
      (nextEvent jp l).sent = pongsFor jp pre := by
  induction l with
  | nil => exact ⟨[], rfl, rfl⟩
  | cons x rest ih =>
    cases x with
    | err e =>
      exact ⟨[.err e], by simp [nextEvent_err], by simp [nextEvent_err, pongsFor, pongFor]⟩
    | ok f =>
      cases f with
      | close =>
        exact ⟨[.ok .close], by simp [nextEvent_close], by simp [nextEvent_close, pongsFor, pongFor]⟩
      | ping d =>
        obtain ⟨pre, hpre, hsent⟩ := ih
        refine ⟨.ok (.ping d) :: pre, ?_, ?_⟩
        · simp [nextEvent_ping, hpre]
        · simp [nextEvent_ping, hsent, pongsFor, pongFor]
      | other =>
        obtain ⟨pre, hpre, hsent⟩ := ih
        refine ⟨.ok .other :: pre, ?_, ?_⟩
        · simp [nextEvent_other, hpre]
        · simp [nextEvent_other, hsent, pongsFor, pongFor]
      | text t =>
        cases hd : decodeEnv jp t with
        | none =>
          obtain ⟨pre, hpre, hsent⟩ := ih
          refine ⟨.ok (.text t) :: pre, ?_, ?_⟩
          · simp [nextEvent_text_undecodable jp t rest hd, hpre]
          · simp [nextEvent_text_undecodable jp t rest hd, hsent, pongsFor, pongFor, hd]
        | some m =>
          by_cases hp : m.event = "pusher:ping"
          · obtain ⟨pre, hpre, hsent⟩ := ih
            refine ⟨.ok (.text t) :: pre, ?_, ?_⟩
            · simp [nextEvent_text_pusherPing jp t rest m hd hp, hpre]
            · simp [nextEvent_text_pusherPing jp t rest m hd hp, hsent, pongsFor, pongFor, hd, hp]
          · by_cases hi : (strStartsWith m.event "pusher:" || strStartsWith m.event "pusher_internal:") = true
            · obtain ⟨pre, hpre, hsent⟩ := ih
              refine ⟨.ok (.text t) :: pre, ?_, ?_⟩
              · simp [nextEvent_text_internal jp t rest m hd hp hi, hpre]
              · simp [nextEvent_text_internal jp t rest m hd hp hi, hsent, pongsFor, pongFor, hd, hp]
            · rw [Bool.not_eq_true] at hi
              refine ⟨[.ok (.text t)], ?_, ?_⟩
              · simp [nextEvent_text_visible jp t rest m hd hp hi]
              · simp [nextEvent_text_visible jp t rest m hd hp hi, pongsFor, pongFor, hd, hp]

/-- Running `nextEvent` on an inbound list with all pings removed yields
the same result and consumes the stripped version of the same suffix,
sending nothing. -/
theorem nextEvent_strip (jp : String → Option Json) (l : List InItem) :
    nextEvent jp (stripPings jp l) =
      ⟨(nextEvent jp l).res, stripPings jp (nextEvent jp l).rest, []⟩ := by
  induction l with
  | nil => simp [stripPings, nextEvent_nil]
  | cons x rest ih =>
    cases x with
    | err e => simp [stripPings, isPingItem, nextEvent_err]
    | ok f =>
      cases f with
      | close => simp [stripPings, isPingItem, nextEvent_close]
      | ping d => simpa [stripPings, isPingItem, nextEvent_ping] using ih
      | other => simpa [stripPings, isPingItem, nextEvent_other] using ih
      | text t =>
        cases hd : decodeEnv jp t with
        | none =>
          rw [stripPings]
          simp only [isPingItem, hd]
          rw [if_neg (by simp)]
          rw [nextEvent_text_undecodable jp _ _ hd,
              nextEvent_text_undecodable jp _ _ hd]
          exact ih
        | some m =>
          by_cases hp : m.event = "pusher:ping"
          · rw [stripPings]
            simp only [isPingItem, hd]
            rw [if_pos (by simp [hp])]
            rw [nextEvent_text_pusherPing jp _ _ m hd hp]
            exact ih
          · by_cases hi : (strStartsWith m.event "pusher:" || strStartsWith m.event "pusher_internal:") = true
            · rw [stripPings]
              simp only [isPingItem, hd]
              rw [if_neg (by simp [hp])]
              rw [nextEvent_text_internal jp _ _ m hd hp hi,
                  nextEvent_text_internal jp _ _ m hd hp hi]
              exact ih
            · rw [Bool.not_eq_true] at hi
              rw [stripPings]
              simp only [isPingItem, hd]
              rw [if_neg (by simp [hp])]
              rw [nextEvent_text_visible jp _ _ m hd hp hi,
                  nextEvent_text_visible jp _ _ m hd hp hi]

/-- An event returned by `nextEvent` never carries a reserved-namespace
name. -/
theorem nextEvent_no_internal (jp : String → Option Json) (l : List InItem)
    (ev : PusherEvent) (h : (nextEvent jp l).res = Except.ok (some ev)) :
    strStartsWith ev.event "pusher:" = false ∧
      strStartsWith ev.event "pusher_internal:" = false := by
  induction l with
  | nil => simp [nextEvent_nil] at h
  | cons x rest ih =>
    cases x with
    | err e => simp [nextEvent_err] at h
    | ok f =>
      cases f with
      | close => simp [nextEvent_close] at h
      | ping d => rw [nextEvent_ping] at h; exact ih h
      | other => rw [nextEvent_other] at h; exact ih h
      | text t =>
        cases hd : decodeEnv jp t with
        | none => rw [nextEvent_text_undecodable jp _ _ hd] at h; exact ih h
        | some m =>
          by_cases hp : m.event = "pusher:ping"
          · rw [nextEvent_text_pusherPing jp _ _ m hd hp] at h; exact ih h
          · by_cases hi : (strStartsWith m.event "pusher:" || strStartsWith m.event "pusher_internal:") = true
            · rw [nextEvent_text_internal jp _ _ m hd hp hi] at h; exact ih h
            · rw [Bool.not_eq_true] at hi
              rw [nextEvent_text_visible jp _ _ m hd hp hi] at h
              simp only [Step.res, Except.ok.injEq, Option.some.injEq] at h
              subst h
              simpa using Bool.or_eq_false_iff.mp hi

/-- An event returned by `nextEvent` originates from a text frame of the
inbound list whose decoded envelope it copies. -/
theorem nextEvent_visible_origin (jp : String → Option Json) (l : List InItem)
    (ev : PusherEvent) (h : (nextEvent jp l).res = Except.ok (some ev)) :
    ∃ t m, InItem.ok (Frame.text t) ∈ l ∧ decodeEnv jp t = some m ∧
      ev = ⟨m.event, m.channel, m.data⟩ := by
  induction l with
  | nil => simp [nextEvent_nil] at h
  | cons x rest ih =>
    cases x with
    | err e => simp [nextEvent_err] at h
    | ok f =>
      cases f with
      | close => simp [nextEvent_close] at h
      | ping d =>
        rw [nextEvent_ping] at h
        obtain ⟨t, m, hm, hd, he⟩ := ih h
        exact ⟨t, m, List.mem_cons_of_mem _ hm, hd, he⟩
      | other =>
        rw [nextEvent_other] at h
        obtain ⟨t, m, hm, hd, he⟩ := ih h
        exact ⟨t, m, List.mem_cons_of_mem _ hm, hd, he⟩
      | text t =>
        cases hd : decodeEnv jp t with
        | none =>
          rw [nextEvent_text_undecodable jp _ _ hd] at h
          obtain ⟨t2, m, hm, hd2, he⟩ := ih h
          exact ⟨t2, m, List.mem_cons_of_mem _ hm, hd2, he⟩
        | some m =>
          by_cases hp : m.event = "pusher:ping"
          · rw [nextEvent_text_pusherPing jp _ _ m hd hp] at h
            obtain ⟨t2, m2, hm, hd2, he⟩ := ih h
            exact ⟨t2, m2, List.mem_cons_of_mem _ hm, hd2, he⟩
          · by_cases hi : (strStartsWith m.event "pusher:" || strStartsWith m.event "pusher_internal:") = true
            · rw [nextEvent_text_internal jp _ _ m hd hp hi] at h
              obtain ⟨t2, m2, hm, hd2, he⟩ := ih h
              exact ⟨t2, m2, List.mem_cons_of_mem _ hm, hd2, he⟩
            · rw [Bool.not_eq_true] at hi
              rw [nextEvent_text_visible jp _ _ m hd hp hi] at h
              simp only [Step.res, Except.ok.injEq, Option.some.injEq] at h
              exact ⟨t, m, List.mem_cons_self _ _, hd, h.symm⟩

/-- Every error `nextEvent` returns is a propagated transport read
error tagged in the inbound list. -/
theorem nextEvent_error_origin (jp : String → Option Json) (l : List InItem)
    (ex : KickApiError) (h : (nextEvent jp l).res = Except.error ex) :
    ∃ e, ex = KickApiError.webSocketError e ∧ InItem.err e ∈ l := by
  induction l with
  | nil => simp [nextEvent_nil] at h
  | cons x rest ih =>
    cases x with
    | err e =>
      rw [nextEvent_err] at h
      simp only [Step.res, Except.error.injEq] at h
      exact ⟨e, h.symm, List.mem_cons_self _ _⟩
    | ok f =>
      cases f with
      | close => simp [nextEvent_close] at h
      | ping d =>
        rw [nextEvent_ping] at h
        obtain ⟨e, he, hm⟩ := ih h
        exact ⟨e, he, List.mem_cons_of_mem _ hm⟩
      | other =>
        rw [nextEvent_other] at h
        obtain ⟨e, he, hm⟩ := ih h
        exact ⟨e, he, List.mem_cons_of_mem _ hm⟩
      | text t =>
        cases hd : decodeEnv jp t with
        | none =>
          rw [nextEvent_text_undecodable jp _ _ hd] at h
          obtain ⟨e, he, hm⟩ := ih h
          exact ⟨e, he, List.mem_cons_of_mem _ hm⟩
        | some m =>
          by_cases hp : m.event = "pusher:ping"
          · rw [nextEvent_text_pusherPing jp _ _ m hd hp] at h
            obtain ⟨e, he, hm⟩ := ih h
            exact ⟨e, he, List.mem_cons_of_mem _ hm⟩
          · by_cases hi : (strStartsWith m.event "pusher:" || strStartsWith m.event "pusher_internal:") = true
            · rw [nextEvent_text_internal jp _ _ m hd hp hi] at h
              obtain ⟨e, he, hm⟩ := ih h
              exact ⟨e, he, List.mem_cons_of_mem _ hm⟩
            · rw [Bool.not_eq_true] at hi
              rw [nextEvent_text_visible jp _ _ m hd hp hi] at h
              simp at h

/-! ## Equations of `drain` -/

theorem drain_none (jp : String → Option Json) (l : List InItem)
    (h : (nextEvent jp l).res = Except.ok none) :
    drain jp l = ⟨[], (nextEvent jp l).sent, (nextEvent jp l).rest⟩ := by
  unfold drain
  simp only []
  split <;> simp_all

theorem drain_error (jp : String → Option Json) (l : List InItem)
    (e : KickApiError) (h : (nextEvent jp l).res = Except.error e) :
    drain jp l = ⟨[], (nextEvent jp l).sent, (nextEvent jp l).rest⟩ := by
  unfold drain
  simp only []
  split <;> simp_all

theorem drain_some (jp : String → Option Json) (l : List InItem)
    (ev : PusherEvent) (h : (nextEvent jp l).res = Except.ok (some ev)) :
    drain jp l = ⟨ev :: (drain jp (nextEvent jp l).rest).events,
      (nextEvent jp l).sent ++ (drain jp (nextEvent jp l).rest).sent,
      (drain jp (nextEvent jp l).rest).rest⟩ := by
  conv_lhs => rw [drain]
  simp only []
  split <;> simp_all

/-- Draining consumes a prefix of the inbound list and sends exactly the
pong replies owed for that prefix. -/
theorem drain_consumed (jp : String → Option Json) (l : List InItem) :
    ∃ pre, pre ++ (drain jp l).rest = l ∧ (drain jp l).sent = pongsFor jp pre := by
  have key : ∀ n (l : List InItem), l.length ≤ n →
      ∃ pre, pre ++ (drain jp l).rest = l ∧ (drain jp l).sent = pongsFor jp pre := by
    intro n
    induction n with
    | zero =>
      intro l hl
      rw [Nat.le_zero, List.length_eq_zero] at hl
      subst hl
      exact ⟨[], by simp [drain_none jp [] (by simp [nextEvent_nil]), nextEvent_nil], by
        simp [drain_none jp [] (by simp [nextEvent_nil]), nextEvent_nil, pongsFor]⟩
    | succ n ih =>
      intro l hl
      rcases hres : (nextEvent jp l).res with e | o
      · obtain ⟨pre, hpre, hsent⟩ := nextEvent_consumed jp l
        exact ⟨pre, by simp [drain_error jp l e hres, hpre], by simp [drain_error jp l e hres, hsent]⟩
      · cases o with
        | none =>
          obtain ⟨pre, hpre, hsent⟩ := nextEvent_consumed jp l
          exact ⟨pre, by simp [drain_none jp l hres, hpre], by simp [drain_none jp l hres, hsent]⟩
        | some ev =>
          obtain ⟨p1, hp1, hs1⟩ := nextEvent_consumed jp l
          have hlt := nextEvent_some_rest_lt jp l ev hres
          obtain ⟨p2, hp2, hs2⟩ := ih (nextEvent jp l).rest (by omega)
          refine ⟨p1 ++ p2, ?_, ?_⟩
          · rw [drain_some jp l ev hres]
            simpa [List.append_assoc, hp2] using hp1
          · rw [drain_some jp l ev hres]
            simp [pongsFor_append, hs1, hs2]
  exact key l.length l le_rfl

/-- Draining a ping-stripped inbound list yields the same caller-visible
event sequence as draining the original list. -/
theorem drain_events_strip (jp : String → Option Json) (l : List InItem) :
    (drain jp (stripPings jp l)).events = (drain jp l).events := by
  have key : ∀ n (l : List InItem), l.length ≤ n →
      (drain jp (stripPings jp l)).events = (drain jp l).events := by
    intro n
    induction n with
    | zero =>
      intro l hl
      rw [Nat.le_zero, List.length_eq_zero] at hl
      subst hl
      simp [stripPings]
    | succ n ih =>
      intro l hl
      rcases hres : (nextEvent jp l).res with e | o
      · have hs := nextEvent_strip jp l
        have hres2 : (nextEvent jp (stripPings jp l)).res = Except.error e := by
          rw [hs]; exact hres
        rw [drain_error jp l e hres, drain_error jp _ e hres2]
      · cases o with
        | none =>
          have hs := nextEvent_strip jp l
          have hres2 : (nextEvent jp (stripPings jp l)).res = Except.ok none := by
            rw [hs]; exact hres
          rw [drain_none jp l hres, drain_none jp _ hres2]
        | some ev =>
          have hs := nextEvent_strip jp l
          have hres2 : (nextEvent jp (stripPings jp l)).res = Except.ok (some ev) := by
            rw [hs]; exact hres
          have hlt := nextEvent_some_rest_lt jp l ev hres
          rw [drain_some jp l ev hres, drain_some jp _ ev hres2]
          have hrest : (nextEvent jp (stripPings jp l)).rest =
              stripPings jp (nextEvent jp l).rest := by rw [hs]
          simp only [hrest]
          have := ih (nextEvent jp l).rest (by omega)
          simp [this]
  exact key l.length l le_rfl

/-- No drained event carries a reserved-namespace name. -/
theorem drain_no_internal (jp : String → Option Json) (l : List InItem)
    (ev : PusherEvent) (h : ev ∈ (drain jp l).events) :
    strStartsWith ev.event "pusher:" = false ∧
      strStartsWith ev.event "pusher_internal:" = false := by
  have key : ∀ n (l : List InItem), l.length ≤ n →
      ∀ ev ∈ (drain jp l).events,
        strStartsWith ev.event "pusher:" = false ∧
          strStartsWith ev.event "pusher_internal:" = false := by
    intro n
    induction n with
    | zero =>
      intro l hl
      rw [Nat.le_zero, List.length_eq_zero] at hl
      subst hl
      intro ev hev
      rw [drain_none jp [] (by simp [nextEvent_nil])] at hev
      simp at hev
    | succ n ih =>
      intro l hl ev hev
      rcases hres : (nextEvent jp l).res with e | o
      · rw [drain_error jp l e hres] at hev; simp at hev
      · cases o with
        | none => rw [drain_none jp l hres] at hev; simp at hev
        | some ev0 =>
          have hlt := nextEvent_some_rest_lt jp l ev0 hres
          rw [drain_some jp l ev0 hres] at hev
          simp only [List.mem_cons] at hev
          rcases hev with hev | hev
          · subst hev; exact nextEvent_no_internal jp l ev hres
          · exact ih (nextEvent jp l).rest (by omega) ev hev
  exact key l.length l le_rfl ev h

/-- Every drained event originates from a text frame of the inbound list
whose decoded envelope it copies. -/
theorem drain_origin (jp : String → Option Json) (l : List InItem)
    (ev : PusherEvent) (h : ev ∈ (drain jp l).events) :
    ∃ t m, InItem.ok (Frame.text t) ∈ l ∧ decodeEnv jp t = some m ∧
      ev = ⟨m.event, m.channel, m.data⟩ := by
  have key : ∀ n (l : List InItem), l.length ≤ n →
      ∀ ev ∈ (drain jp l).events,
        ∃ t m, InItem.ok (Frame.text t) ∈ l ∧ decodeEnv jp t = some m ∧
          ev = ⟨m.event, m.channel, m.data⟩ := by
    intro n
    induction n with
    | zero =>
      intro l hl
      rw [Nat.le_zero, List.length_eq_zero] at hl
      subst hl
      intro ev hev
      rw [drain_none jp [] (by simp [nextEvent_nil])] at hev
      simp at hev
    | succ n ih =>
      intro l hl ev hev
      rcases hres : (nextEvent jp l).res with e | o
      · rw [drain_error jp l e hres] at hev; simp at hev
      · cases o with
        | none => rw [drain_none jp l hres] at hev; simp at hev
        | some ev0 =>
          have hlt := nextEvent_some_rest_lt jp l ev0 hres
          rw [drain_some jp l ev0 hres] at hev
          simp only [List.mem_cons] at hev
          rcases hev with hev | hev
          · subst hev; exact nextEvent_visible_origin jp l ev hres
          · obtain ⟨t, m, hm, hd, he⟩ := ih (nextEvent jp l).rest (by omega) ev hev
            obtain ⟨pre, hpre, -⟩ := nextEvent_consumed jp l
            exact ⟨t, m, by rw [← hpre]; exact List.mem_append_right _ hm, hd, he⟩
  exact key l.length l le_rfl ev h

/-! ## Equations of `waitForEvent` -/

theorem wfe_nil (jp : String → Option Json) (name : String) :
    waitForEvent jp name [] =
      ⟨.error (.unexpectedError ("Connection closed while waiting for " ++ name)), [], []⟩ := rfl

theorem wfe_err (jp : String → Option Json) (name : String) (e : Nat) (l : List InItem) :
    waitForEvent jp name (.err e :: l) = ⟨.error (.webSocketError e), l, []⟩ := rfl

theorem wfe_ping (jp : String → Option Json) (name : String) (d : List Nat) (l : List InItem) :
    waitForEvent jp name (.ok (.ping d) :: l) =
      ⟨(waitForEvent jp name l).res, (waitForEvent jp name l).rest,
        .transportPong d :: (waitForEvent jp name l).sent⟩ := rfl

theorem wfe_close (jp : String → Option Json) (name : String) (l : List InItem) :
    waitForEvent jp name (.ok .close :: l) = waitForEvent jp name l := rfl

theorem wfe_other (jp : String → Option Json) (name : String) (l : List InItem) :
    waitForEvent jp name (.ok .other :: l) = waitForEvent jp name l := rfl

theorem wfe_text_undecodable (jp : String → Option Json) (name t : String)
    (l : List InItem) (h : decodeEnv jp t = none) :
    waitForEvent jp name (.ok (.text t) :: l) = waitForEvent jp name l := by
  simp [waitForEvent, h]

theorem wfe_text_match (jp : String → Option Json) (name t : String)
    (l : List InItem) (m : PusherMessage) (h : decodeEnv jp t = some m)
    (he : m.event = name) :
    waitForEvent jp name (.ok (.text t) :: l) = ⟨.ok (), l, []⟩ := by
  simp [waitForEvent, h, he]

theorem wfe_text_nomatch (jp : String → Option Json) (name t : String)
    (l : List InItem) (m : PusherMessage) (h : decodeEnv jp t = some m)
    (he : m.event ≠ name) :
    waitForEvent jp name (.ok (.text t) :: l) = waitForEvent jp name l := by
  simp [waitForEvent, h, he]

/-! ## Structural facts about `waitForEvent` -/

/-- When the handshake wait succeeds, the inbound list splits as a skipped
prefix, the matching frame, and the returned remainder. -/
theorem wfe_ok_decomp (jp : String → Option Json) (name : String) (l : List InItem)
    (h : (waitForEvent jp name l).res = Except.ok ()) :
    ∃ p t m, p ++ InItem.ok (Frame.text t) :: (waitForEvent jp name l).rest = l ∧
      decodeEnv jp t = some m ∧ m.event = name := by
  induction l with
  | nil => simp [wfe_nil] at h
  | cons x rest ih =>
    cases x with
    | err e => simp [wfe_err] at h
    | ok f =>
      cases f with
      | close =>
        rw [wfe_close] at h ⊢
        obtain ⟨p, t, m, hp, hd, he⟩ := ih h
        exact ⟨.ok .close :: p, t, m, by simpa using hp, hd, he⟩
      | ping d =>
        rw [wfe_ping] at h ⊢
        obtain ⟨p, t, m, hp, hd, he⟩ := ih h
        exact ⟨.ok (.ping d) :: p, t, m, by simpa using hp, hd, he⟩
      | other =>
        rw [wfe_other] at h ⊢
        obtain ⟨p, t, m, hp, hd, he⟩ := ih h
        exact ⟨.ok .other :: p, t, m, by simpa using hp, hd, he⟩
      | text t =>
        cases hd : decodeEnv jp t with
        | none =>
          rw [wfe_text_undecodable jp name t rest hd] at h ⊢
          obtain ⟨p, t2, m, hp, hd2, he⟩ := ih h
          exact ⟨.ok (.text t) :: p, t2, m, by simpa using hp, hd2, he⟩
        | some m =>
          by_cases he : m.event = name
          · rw [wfe_text_match jp name t rest m hd he]
            exact ⟨[], t, m, rfl, hd, he⟩
          · rw [wfe_text_nomatch jp name t rest m hd he] at h ⊢
            obtain ⟨p, t2, m2, hp, hd2, he2⟩ := ih h
            exact ⟨.ok (.text t) :: p, t2, m2, by simpa using hp, hd2, he2⟩

/-- If no inbound item decodes to the awaited event, the handshake wait
fails with an error (stream end or a propagated transport error). -/
theorem wfe_never (jp : String → Option Json) (name : String) (l : List InItem)
    (h : ∀ it ∈ l, matchesName jp name it = false) :
    ∃ e, (waitForEvent jp name l).res = Except.error e := by
  induction l with
  | nil => exact ⟨_, rfl⟩
  | cons x rest ih =>
    have hx := h x (List.mem_cons_self _ _)
    have hrest : ∀ it ∈ rest, matchesName jp name it = false :=
      fun it hit => h it (List.mem_cons_of_mem _ hit)
    cases x with
    | err e => exact ⟨.webSocketError e, rfl⟩
    | ok f =>
      cases f with
      | close => rw [wfe_close]; exact ih hrest
      | ping d =>
        rw [wfe_ping]
        obtain ⟨e, he⟩ := ih hrest
        exact ⟨e, he⟩
      | other => rw [wfe_other]; exact ih hrest
      | text t =>
        cases hd : decodeEnv jp t with
        | none => rw [wfe_text_undecodable jp name t rest hd]; exact ih hrest
        | some m =>
          have he : m.event ≠ name := by
            intro he
            rw [matchesName, hd] at hx
            simp [he] at hx
          rw [wfe_text_nomatch jp name t rest m hd he]
          exact ih hrest

/-- The handshake wait consumes a prefix of the inbound list and sends
exactly one transport pong per transport ping frame in that prefix —
and nothing else: protocol-level keepalive-ping envelopes receive no
reply here. -/
theorem wfe_sent_transport (jp : String → Option Json) (name : String)
    (l : List InItem) :
    ∃ pre, pre ++ (waitForEvent jp name l).rest = l ∧
      (waitForEvent jp name l).sent = transportPongsFor pre := by
  induction l with
  | nil => exact ⟨[], rfl, rfl⟩
  | cons x rest ih =>
    cases x with
    | err e => exact ⟨[.err e], rfl, rfl⟩
    | ok f =>
      cases f with
      | close =>
        rw [wfe_close]
        obtain ⟨p, hp, hs⟩ := ih
        exact ⟨.ok .close :: p, by simpa using hp, by simpa [transportPongsFor] using hs⟩
      | ping d =>
        rw [wfe_ping]
        obtain ⟨p, hp, hs⟩ := ih
        exact ⟨.ok (.ping d) :: p, by simpa using hp, by simpa [transportPongsFor] using hs⟩
      | other =>
        rw [wfe_other]
        obtain ⟨p, hp, hs⟩ := ih
        exact ⟨.ok .other :: p, by simpa using hp, by simpa [transportPongsFor] using hs⟩
      | text t =>
        cases hd : decodeEnv jp t with
        | none =>
          rw [wfe_text_undecodable jp name t rest hd]
          obtain ⟨p, hp, hs⟩ := ih
          exact ⟨.ok (.text t) :: p, by simpa using hp, by simpa [transportPongsFor] using hs⟩
        | some m =>
          by_cases he : m.event = name
          · rw [wfe_text_match jp name t rest m hd he]
            exact ⟨[.ok (.text t)], rfl, rfl⟩
          · rw [wfe_text_nomatch jp name t rest m hd he]
            obtain ⟨p, hp, hs⟩ := ih
            exact ⟨.ok (.text t) :: p, by simpa using hp, by simpa [transportPongsFor] using hs⟩

/-- Transport pongs are never text sends. -/
theorem transportPongsFor_no_text (l : List InItem) :
    (transportPongsFor l).filter isTextSend = [] := by
  induction l with
  | nil => rfl
  | cons x rest ih =>
    cases x with
    | err e => simpa [transportPongsFor] using ih
    | ok f =>
      cases f with
      | close => simpa [transportPongsFor] using ih
      | ping d => simpa [transportPongsFor, isTextSend] using ih
      | other => simpa [transportPongsFor] using ih
      | text t => simpa [transportPongsFor] using ih

/-! ## Equations of `nextMessage` -/

theorem nextMessage_of_error (jp : String → Option Json) (l : List InItem)
    (e : KickApiError) (h : (nextEvent jp l).res = Except.error e) :
    nextMessage jp l = ⟨.error e, (nextEvent jp l).rest, (nextEvent jp l).sent⟩ := by
  unfold nextMessage
  simp only []
  split <;> simp_all

theorem nextMessage_of_none (jp : String → Option Json) (l : List InItem)
    (h : (nextEvent jp l).res = Except.ok none) :
    nextMessage jp l = ⟨.ok none, (nextEvent jp l).rest, (nextEvent jp l).sent⟩ := by
  unfold nextMessage
  simp only []
  split <;> simp_all

theorem nextMessage_of_chat (jp : String → Option Json) (l : List InItem)
    (ev : PusherEvent) (msg : LiveChatMessage)
    (h : (nextEvent jp l).res = Except.ok (some ev))
    (hc : ev.event = "App\\Events\\ChatMessageEvent")
    (hm : parseChat jp ev.data = some msg) :
    nextMessage jp l = ⟨.ok (some msg), (nextEvent jp l).rest, (nextEvent jp l).sent⟩ := by
  conv_lhs => rw [nextMessage]
  simp only []
  split <;> simp_all

theorem nextMessage_of_chat_badparse (jp : String → Option Json) (l : List InItem)
    (ev : PusherEvent) (h : (nextEvent jp l).res = Except.ok (some ev))
    (hc : ev.event = "App\\Events\\ChatMessageEvent")
    (hm : parseChat jp ev.data = none) :
    nextMessage jp l = ⟨(nextMessage jp (nextEvent jp l).rest).res,
      (nextMessage jp (nextEvent jp l).rest).rest,
      (nextEvent jp l).sent ++ (nextMessage jp (nextEvent jp l).rest).sent⟩ := by
  conv_lhs => rw [nextMessage]
  simp only []
  split <;> simp_all

theorem nextMessage_of_nonchat (jp : String → Option Json) (l : List InItem)
    (ev : PusherEvent) (h : (nextEvent jp l).res = Except.ok (some ev))
    (hc : ev.event ≠ "App\\Events\\ChatMessageEvent") :
    nextMessage jp l = ⟨(nextMessage jp (nextEvent jp l).rest).res,
      (nextMessage jp (nextEvent jp l).rest).rest,
      (nextEvent jp l).sent ++ (nextMessage jp (nextEvent jp l).rest).sent⟩ := by
  conv_lhs => rw [nextMessage]
  simp only []
  split <;> simp_all

/-! ## Equations of `connect` -/

theorem connect_err1 (jp : String → Option Json) (chatroomId : Nat) (l : List InItem)
    (e : KickApiError)
    (h : (waitForEvent jp "pusher:connection_established" l).res = Except.error e) :
    connect jp chatroomId l =
      ⟨.error e, (waitForEvent jp "pusher:connection_established" l).sent⟩ := by
  unfold connect
  simp only []
  split <;> simp_all

theorem connect_err2 (jp : String → Option Json) (chatroomId : Nat) (l : List InItem)
    (e : KickApiError)
    (h1 : (waitForEvent jp "pusher:connection_established" l).res = Except.ok ())
    (h2 : (waitForEvent jp "pusher_internal:subscription_succeeded"
      (waitForEvent jp "pusher:connection_established" l).rest).res = Except.error e) :
    connect jp chatroomId l =
      ⟨.error e,
        (waitForEvent jp "pusher:connection_established" l).sent ++
          .textJson (subscribeJson ("chatrooms." ++ Nat.repr chatroomId ++ ".v2")) ::
            (waitForEvent jp "pusher_internal:subscription_succeeded"
              (waitForEvent jp "pusher:connection_established" l).rest).sent⟩ := by
  unfold connect
  simp only []
  split <;> simp_all

theorem connect_ok (jp : String → Option Json) (chatroomId : Nat) (l : List InItem)
    (h1 : (waitForEvent jp "pusher:connection_established" l).res = Except.ok ())
    (h2 : (waitForEvent jp "pusher_internal:subscription_succeeded"
      (waitForEvent jp "pusher:connection_established" l).rest).res = Except.ok ()) :
    connect jp chatroomId l =
      ⟨.ok (waitForEvent jp "pusher_internal:subscription_succeeded"
          (waitForEvent jp "pusher:connection_established" l).rest).rest,
        (waitForEvent jp "pusher:connection_established" l).sent ++
          .textJson (subscribeJson ("chatrooms." ++ Nat.repr chatroomId ++ ".v2")) ::
            (waitForEvent jp "pusher_internal:subscription_succeeded"
              (waitForEvent jp "pusher:connection_established" l).rest).sent⟩ := by
  unfold connect
  simp only []
  split <;> simp_all

/-- A chat message returned by `nextMessage` originates from an inbound
text frame decoding to a chat-message envelope whose `data` parses to it. -/
theorem nextMessage_some_origin (jp : String → Option Json) (l : List InItem)
    (msg : LiveChatMessage) (h : (nextMessage jp l).res = Except.ok (some msg)) :
    ∃ t m, InItem.ok (Frame.text t) ∈ l ∧ decodeEnv jp t = some m ∧
      m.event = "App\\Events\\ChatMessageEvent" ∧ parseChat jp m.data = some msg := by
  have key : ∀ n (l : List InItem), l.length ≤ n →
      ∀ msg, (nextMessage jp l).res = Except.ok (some msg) →
        ∃ t m, InItem.ok (Frame.text t) ∈ l ∧ decodeEnv jp t = some m ∧
          m.event = "App\\Events\\ChatMessageEvent" ∧ parseChat jp m.data = some msg := by
    intro n
    induction n with
    | zero =>
      intro l hl msg h
      rw [Nat.le_zero, List.length_eq_zero] at hl
      subst hl
      rw [nextMessage_of_none jp [] (by rw [nextEvent_nil])] at h
      simp at h
    | succ n ih =>
      intro l hl msg h
      rcases hres : (nextEvent jp l).res with e | o
      · rw [nextMessage_of_error jp l e hres] at h; simp at h
      · cases o with
        | none => rw [nextMessage_of_none jp l hres] at h; simp at h
        | some ev =>
          have hlt := nextEvent_some_rest_lt jp l ev hres
          by_cases hc : ev.event = "App\\Events\\ChatMessageEvent"
          · cases hm : parseChat jp ev.data with
            | some m2 =>
              rw [nextMessage_of_chat jp l ev m2 hres hc hm] at h
              simp only [Step.res, Except.ok.injEq, Option.some.injEq] at h
              subst h
              obtain ⟨t, m, hmem, hd, hev⟩ := nextEvent_visible_origin jp l ev hres
              refine ⟨t, m, hmem, hd, ?_, ?_⟩
              · rw [hev] at hc; exact hc
              · rw [hev] at hm; exact hm
            | none =>
              rw [nextMessage_of_chat_badparse jp l ev hres hc hm] at h
              simp only [Step.res] at h
              obtain ⟨t, m, hmem, hd, hcm, hpm⟩ :=
                ih (nextEvent jp l).rest (by omega) msg h
              obtain ⟨pre, hpre, -⟩ := nextEvent_consumed jp l
              exact ⟨t, m, by rw [← hpre]; exact List.mem_append_right _ hmem, hd, hcm, hpm⟩
          · rw [nextMessage_of_nonchat jp l ev hres hc] at h
            simp only [Step.res] at h
            obtain ⟨t, m, hmem, hd, hcm, hpm⟩ :=
              ih (nextEvent jp l).rest (by omega) msg h
            obtain ⟨pre, hpre, -⟩ := nextEvent_consumed jp l
            exact ⟨t, m, by rw [← hpre]; exact List.mem_append_right _ hmem, hd, hcm, hpm⟩
  exact key l.length l le_rfl msg h

/-! ## The claims -/

/-- C1: For every inbound sequence on a ready session, the caller-visible
event sequence from repeated `next_event` calls equals the event sequence
obtained from the same inbound sequence with all transport-level ping
frames and all keepalive-ping envelopes removed, and what the calls send
is exactly one matching pong per ping received (in order, and nothing
else), where the received frames are the consumed prefix of the inbound
list. -/
theorem c1_ping_transparency (jp : String → Option Json) (l : List InItem) :
    (drain jp (stripPings jp l)).events = (drain jp l).events ∧
    ∃ pre, pre ++ (drain jp l).rest = l ∧ (drain jp l).sent = pongsFor jp pre :=
  ⟨drain_events_strip jp l, drain_consumed jp l⟩

/-- C3: No envelope whose event name starts with `pusher:` or
`pusher_internal:` is ever returned by `next_event`: every surfaced event
fails both prefix tests, and such an envelope is consumed with the receive
loop continuing. -/
theorem c3_reserved_never_surfaced (jp : String → Option Json) (l : List InItem) :
    (∀ ev ∈ (drain jp l).events,
      strStartsWith ev.event "pusher:" = false ∧
        strStartsWith ev.event "pusher_internal:" = false) ∧
    (∀ t m rest, decodeEnv jp t = some m → m.event ≠ "pusher:ping" →
      (strStartsWith m.event "pusher:" || strStartsWith m.event "pusher_internal:") = true →
      nextEvent jp (.ok (.text t) :: rest) = nextEvent jp rest) :=
  ⟨fun ev hev => drain_no_internal jp l ev hev,
   fun t m rest hd hp hi => nextEvent_text_internal jp t rest m hd hp hi⟩

theorem c3_reserved_never_surfaced_witness :
    nextEvent jpFix [.ok (.text "int")] = nextEvent jpFix [] :=
  (c3_reserved_never_surfaced jpFix []).2 "int"
    ⟨"pusher_internal:member_added", "{}", none⟩ [] rfl (by decide) rfl

/-- C5: Transport closure is terminal: at end of stream both `next_event`
and `next_message` return `Ok(None)` leaving the stream empty (so every
subsequent call returns `Ok(None)` again), and a close control frame makes
the current call return `Ok(None)` with the transport contributing nothing
further afterwards. -/
theorem c5_closed_terminal (jp : String → Option Json) :
    nextEvent jp [] = ⟨.ok none, [], []⟩ ∧
    nextMessage jp [] = ⟨.ok none, [], []⟩ ∧
    (∀ l, nextEvent jp (.ok .close :: l) = ⟨.ok none, l, []⟩) ∧
    (∀ l, nextMessage jp (.ok .close :: l) = ⟨.ok none, l, []⟩) := by
  refine ⟨nextEvent_nil jp, ?_, fun l => nextEvent_close jp l, fun l => ?_⟩
  · have h := nextMessage_of_none jp [] (by rw [nextEvent_nil])
    simpa [nextEvent_nil] using h
  · have h := nextMessage_of_none jp (.ok .close :: l) (by rw [nextEvent_close])
    simpa [nextEvent_close] using h

/-- C7: A frame that is not text-decodable as an envelope — a non-text
frame other than ping and close, or a text frame failing envelope
deserialization — is discarded silently with the loop continuing, and
every error `next_event` returns is a propagated transport read error. -/
theorem c7_malformed_silent (jp : String → Option Json) :
    (∀ t l, decodeEnv jp t = none →
      nextEvent jp (.ok (.text t) :: l) = nextEvent jp l) ∧
    (∀ l, nextEvent jp (.ok .other :: l) = nextEvent jp l) ∧
    (∀ l ex, (nextEvent jp l).res = Except.error ex →
      ∃ e, ex = KickApiError.webSocketError e ∧ InItem.err e ∈ l) :=
  ⟨fun t l h => nextEvent_text_undecodable jp t l h,
   fun l => nextEvent_other jp l,
   fun l ex h => nextEvent_error_origin jp l ex h⟩

theorem c7_malformed_silent_witness :
    nextEvent jpFix [.ok (.text "garbage")] = nextEvent jpFix [] :=
  (c7_malformed_silent jpFix).1 "garbage" [] rfl

/-- C9: Envelope deserialization requires a `data` field that is a JSON
string: with `data` absent, or present as any non-string value, the
envelope fails to decode, and `next_event` then discards the frame
silently whatever its event name. -/
theorem c9_envelope_data_strict (j : Json) :
    (Json.getField j "data" = none → PusherMessage.fromJson j = none) ∧
    (∀ v, Json.getField j "data" = some v → (∀ s, v ≠ Json.str s) →
      PusherMessage.fromJson j = none) ∧
    (∀ jp t rest, jp t = some j → PusherMessage.fromJson j = none →
      nextEvent jp (.ok (.text t) :: rest) = nextEvent jp rest) := by
  refine ⟨?_, ?_, ?_⟩
  · intro h
    unfold PusherMessage.fromJson
    rw [h]
    split <;> simp_all
  · intro v hv hns
    unfold PusherMessage.fromJson
    rw [hv]
    rcases v with _ | b | n | s | a | o
    · split <;> simp_all
    · split <;> simp_all
    · split <;> simp_all
    · exact absurd rfl (hns s)
    · split <;> simp_all
    · split <;> simp_all
  · intro jp t rest hjp hfj
    have hd : decodeEnv jp t = none := by
      unfold decodeEnv
      rw [hjp]
      exact hfj
    exact nextEvent_text_undecodable jp t rest hd

theorem c9_envelope_data_strict_witness :
    PusherMessage.fromJson
      (Json.obj [("event", .str "App\\Events\\ChatMessageEvent"),
        ("data", .obj [])]) = none :=
  (c9_envelope_data_strict _).2.1 (.obj []) rfl (fun s h => Json.noConfusion h)

/-- C2: `connect` returns a ready session only after a frame decoding to
`pusher:connection_established` and, later, a frame decoding to
`pusher_internal:subscription_succeeded` have been observed, in that
order, whatever other frames intervene; and when the awaited
connection-established event never arrives (the stream ends or errors
first), `connect` returns an error — by construction no session value
accompanies an error. -/
theorem c2_handshake_ordering (jp : String → Option Json) (chatroomId : Nat)
    (l : List InItem) :
    (∀ rest out, connect jp chatroomId l = ⟨.ok rest, out⟩ →
      ∃ p1 t1 m1 p2 t2 m2,
        p1 ++ InItem.ok (Frame.text t1) :: p2 ++ InItem.ok (Frame.text t2) :: rest = l ∧
        decodeEnv jp t1 = some m1 ∧ m1.event = "pusher:connection_established" ∧
        decodeEnv jp t2 = some m2 ∧
        m2.event = "pusher_internal:subscription_succeeded") ∧
    ((∀ it ∈ l, matchesName jp "pusher:connection_established" it = false) →
      ∃ e, (connect jp chatroomId l).res = Except.error e) ∧
    ((waitForEvent jp "pusher:connection_established" l).res = Except.ok () →
      (∀ it ∈ (waitForEvent jp "pusher:connection_established" l).rest,
        matchesName jp "pusher_internal:subscription_succeeded" it = false) →
      ∃ e, (connect jp chatroomId l).res = Except.error e) := by
  refine ⟨?_, ?_, ?_⟩
  · intro rest out h
    rcases hw1 : (waitForEvent jp "pusher:connection_established" l).res with e1 | u1
    · rw [connect_err1 jp chatroomId l e1 hw1] at h
      simp at h
    · cases u1
      rcases hw2 : (waitForEvent jp "pusher_internal:subscription_succeeded"
          (waitForEvent jp "pusher:connection_established" l).rest).res with e2 | u2
      · rw [connect_err2 jp chatroomId l e2 hw1 hw2] at h
        simp at h
      · cases u2
        rw [connect_ok jp chatroomId l hw1 hw2] at h
        simp only [ConnectResult.mk.injEq, Except.ok.injEq] at h
        obtain ⟨hrest, -⟩ := h
        obtain ⟨p1, t1, m1, hp1, hd1, he1⟩ := wfe_ok_decomp jp _ l hw1
        obtain ⟨p2, t2, m2, hp2, hd2, he2⟩ := wfe_ok_decomp jp _ _ hw2
        rw [hrest] at hp2
        refine ⟨p1, t1, m1, p2, t2, m2, ?_, hd1, he1, hd2, he2⟩
        rw [← hp1, ← hp2]
        simp
  · intro hnone
    obtain ⟨e, he⟩ := wfe_never jp _ l hnone
    rw [connect_err1 jp chatroomId l e he]
    exact ⟨e, rfl⟩
  · intro h1 hnone
    obtain ⟨e, he⟩ := wfe_never jp _ _ hnone
    rw [connect_err2 jp chatroomId l e h1 he]
    exact ⟨e, rfl⟩

theorem c2_handshake_ordering_witness :
    ∃ p1 t1 m1 p2 t2 m2,
      p1 ++ InItem.ok (Frame.text t1) :: p2 ++ InItem.ok (Frame.text t2) :: ([] : List InItem) =
        [InItem.ok (Frame.text "conn"), InItem.ok (Frame.text "sub")] ∧
      decodeEnv jpFix t1 = some m1 ∧ m1.event = "pusher:connection_established" ∧
      decodeEnv jpFix t2 = some m2 ∧
      m2.event = "pusher_internal:subscription_succeeded" :=
  (c2_handshake_ordering jpFix 5 [.ok (.text "conn"), .ok (.text "sub")]).1 []
    [.textJson (subscribeJson "chatrooms.5.v2")] rfl

/-- C4: `next_message` propagates `Ok(None)` and errors from `next_event`
unchanged; discards an event whose name is not exactly the chat-message
identifier and loops; silently discards a chat-message event whose `data`
fails the inner parse and loops; returns the parsed message otherwise; and
every message it returns comes from a chat-message envelope whose `data`
parsed. -/
theorem c4_next_message_filtering (jp : String → Option Json) (l : List InItem) :
    (∀ r o, nextEvent jp l = ⟨.ok none, r, o⟩ → nextMessage jp l = ⟨.ok none, r, o⟩) ∧
    (∀ e r o, nextEvent jp l = ⟨.error e, r, o⟩ → nextMessage jp l = ⟨.error e, r, o⟩) ∧
    (∀ ev r o, nextEvent jp l = ⟨.ok (some ev), r, o⟩ →
      (ev.event ≠ "App\\Events\\ChatMessageEvent" →
        nextMessage jp l = ⟨(nextMessage jp r).res, (nextMessage jp r).rest,
          o ++ (nextMessage jp r).sent⟩) ∧
      (∀ msg, ev.event = "App\\Events\\ChatMessageEvent" →
        parseChat jp ev.data = some msg → nextMessage jp l = ⟨.ok (some msg), r, o⟩) ∧
      (ev.event = "App\\Events\\ChatMessageEvent" → parseChat jp ev.data = none →
        nextMessage jp l = ⟨(nextMessage jp r).res, (nextMessage jp r).rest,
          o ++ (nextMessage jp r).sent⟩)) ∧
    (∀ msg, (nextMessage jp l).res = Except.ok (some msg) →
      ∃ t m, InItem.ok (Frame.text t) ∈ l ∧ decodeEnv jp t = some m ∧
        m.event = "App\\Events\\ChatMessageEvent" ∧ parseChat jp m.data = some msg) := by
  refine ⟨?_, ?_, ?_, ?_⟩
  · intro r o h
    have := nextMessage_of_none jp l (by rw [h])
    rwa [h] at this
  · intro e r o h
    have := nextMessage_of_error jp l e (by rw [h])
    rwa [h] at this
  · intro ev r o h
    refine ⟨?_, ?_, ?_⟩
    · intro hc
      have := nextMessage_of_nonchat jp l ev (by rw [h]) hc
      rwa [h] at this
    · intro msg hc hm
      have := nextMessage_of_chat jp l ev msg (by rw [h]) hc hm
      rwa [h] at this
    · intro hc hm
      have := nextMessage_of_chat_badparse jp l ev (by rw [h]) hc hm
      rwa [h] at this
  · intro msg h
    exact nextMessage_some_origin jp l msg h

theorem c4_next_message_filtering_witness :
    nextMessage jpFix [.ok (.text "chat")] =
      ⟨.ok (some msgFix), [], []⟩ :=
  ((c4_next_message_filtering jpFix [.ok (.text "chat")]).2.2.1
    ⟨"App\\Events\\ChatMessageEvent", none, "payload"⟩ [] [] rfl).2.1 msgFix rfl rfl

/-- C6 (corrected): during a handshake wait, a text frame decoding to a
keepalive-ping envelope named `pusher:ping` is consumed without any pong
being sent — refuting the claim that protocol-level keepalive pings are
answered during both blocking phases of `connect`.  Here such an envelope
is consumed while waiting for `pusher:connection_established` and the
call returns having sent nothing. -/
theorem c6_counterexample :
    decodeEnv jpFix "ping" = some ⟨"pusher:ping", "{}", none⟩ ∧
    isPingItem jpFix (.ok (.text "ping")) = true ∧
    waitForEvent jpFix "pusher:connection_established"
      [.ok (.text "ping"), .ok (.text "conn")] = ⟨.ok (), [], []⟩ :=
  ⟨rfl, rfl, rfl⟩

/-- C6 (amended): during both blocking phases of the connect handshake,
every transport-level ping frame received is answered with exactly one
transport pong and discarded — the sends of a wait are precisely the
transport pongs owed for its consumed prefix — while a protocol-level
keepalive-ping envelope, like every other non-matching frame, is
discarded without any reply. -/
theorem c6_handshake_pings_amended (jp : String → Option Json) (name : String)
    (l : List InItem) :
    (∃ pre, pre ++ (waitForEvent jp name l).rest = l ∧
      (waitForEvent jp name l).sent = transportPongsFor pre) ∧
    (∀ d rest, waitForEvent jp name (.ok (.ping d) :: rest) =
      ⟨(waitForEvent jp name rest).res, (waitForEvent jp name rest).rest,
        .transportPong d :: (waitForEvent jp name rest).sent⟩) ∧
    (∀ t m rest, decodeEnv jp t = some m → m.event = "pusher:ping" →
      m.event ≠ name →
      waitForEvent jp name (.ok (.text t) :: rest) = waitForEvent jp name rest) :=
  ⟨wfe_sent_transport jp name l,
   fun d rest => wfe_ping jp name d rest,
   fun t m rest hd _ hn => wfe_text_nomatch jp name t rest m hd hn⟩

theorem c6_handshake_pings_amended_witness :
    waitForEvent jpFix "pusher:connection_established" [.ok (.text "ping")] =
      waitForEvent jpFix "pusher:connection_established" [] :=
  (c6_handshake_pings_amended jpFix "pusher:connection_established" []).2.2
    "ping" ⟨"pusher:ping", "{}", none⟩ [] rfl rfl (by decide)

/-- C8: a successful `connect` sends exactly one subscribe envelope — the
only text send among its outbound messages is the document with event
`pusher:subscribe` and data `{ auth: "", channel: "chatrooms.<id>.v2" }`
for the channel name derived from the room id. -/
theorem c8_subscribe_exact (jp : String → Option Json) (chatroomId : Nat)
    (l rest : List InItem) (out : List OutMsg)
    (h : connect jp chatroomId l = ⟨.ok rest, out⟩) :
    out.filter isTextSend =
      [.textJson (subscribeJson ("chatrooms." ++ Nat.repr chatroomId ++ ".v2"))] := by
  rcases hw1 : (waitForEvent jp "pusher:connection_established" l).res with e1 | u1
  · rw [connect_err1 jp chatroomId l e1 hw1] at h
    simp at h
  · cases u1
    rcases hw2 : (waitForEvent jp "pusher_internal:subscription_succeeded"
        (waitForEvent jp "pusher:connection_established" l).rest).res with e2 | u2
    · rw [connect_err2 jp chatroomId l e2 hw1 hw2] at h
      simp at h
    · cases u2
      rw [connect_ok jp chatroomId l hw1 hw2] at h
      simp only [ConnectResult.mk.injEq, Except.ok.injEq] at h
      obtain ⟨-, hout⟩ := h
      obtain ⟨p1, -, hs1⟩ := wfe_sent_transport jp "pusher:connection_established" l
      obtain ⟨p2, -, hs2⟩ := wfe_sent_transport jp "pusher_internal:subscription_succeeded"
        (waitForEvent jp "pusher:connection_established" l).rest
      rw [← hout, List.filter_append, hs1, hs2, transportPongsFor_no_text]
      simp [isTextSend, transportPongsFor_no_text]

theorem c8_subscribe_exact_witness :
    ([.textJson (subscribeJson "chatrooms.5.v2")] : List OutMsg).filter isTextSend =
      [.textJson (subscribeJson ("chatrooms." ++ Nat.repr 5 ++ ".v2"))] :=
  c8_subscribe_exact jpFix 5 [.ok (.text "conn"), .ok (.text "sub")] []
    [.textJson (subscribeJson "chatrooms.5.v2")] rfl

/-- C10: every frame consumed during a successful `connect` handshake is
permanently lost: the ready session continues from a suffix of the
inbound list, and every event a subsequent drain of the session delivers
originates from a text frame of that suffix — nothing consumed before
subscription acknowledgement is queued or replayed. -/
theorem c10_preconnect_frames_lost (jp : String → Option Json) (chatroomId : Nat)
    (l rest : List InItem) (out : List OutMsg)
    (h : connect jp chatroomId l = ⟨.ok rest, out⟩) :
    (∃ pre, pre ++ rest = l) ∧
    ∀ ev ∈ (drain jp rest).events,
      ∃ t m, InItem.ok (Frame.text t) ∈ rest ∧ decodeEnv jp t = some m ∧
        ev = ⟨m.event, m.channel, m.data⟩ := by
  constructor
  · rcases hw1 : (waitForEvent jp "pusher:connection_established" l).res with e1 | u1
    · rw [connect_err1 jp chatroomId l e1 hw1] at h
      simp at h
    · cases u1
      rcases hw2 : (waitForEvent jp "pusher_internal:subscription_succeeded"
          (waitForEvent jp "pusher:connection_established" l).rest).res with e2 | u2
      · rw [connect_err2 jp chatroomId l e2 hw1 hw2] at h
        simp at h
      · cases u2
        rw [connect_ok jp chatroomId l hw1 hw2] at h
        simp only [ConnectResult.mk.injEq, Except.ok.injEq] at h
        obtain ⟨hrest, -⟩ := h
        obtain ⟨p1, hp1, -⟩ := wfe_sent_transport jp "pusher:connection_established" l
        obtain ⟨p2, hp2, -⟩ := wfe_sent_transport jp "pusher_internal:subscription_succeeded"
          (waitForEvent jp "pusher:connection_established" l).rest
        rw [hrest] at hp2
        exact ⟨p1 ++ p2, by rw [List.append_assoc, hp2, hp1]⟩
  · intro ev hev
    exact drain_origin jp rest ev hev

theorem c10_preconnect_frames_lost_witness :
    ∃ pre, pre ++ ([] : List InItem) =
      [InItem.ok (Frame.text "conn"), InItem.ok (Frame.text "chat"),
        InItem.ok (Frame.text "sub")] :=
  (c10_preconnect_frames_lost jpFix 5
    [.ok (.text "conn"), .ok (.text "chat"), .ok (.text "sub")] []
    [.textJson (subscribeJson "chatrooms.5.v2")] rfl).1
